import Mathlib

/-!
Verification of the SerialLink serial-port agent (Go) against its
natural-language specification.  The Go code is shallowly embedded:
the session manager's two Go maps (`sessions`, `sessionsByID`) become
association lists, fallible driver calls become explicit outcome
parameters, and the streaming reader's loop becomes a pure function
from the list of driver read results to the list of broadcast events.
-/

namespace SerialLink

/-! ## Association-list maps

Go's `map[string]*Session` / `map[string]*Session` are modelled as
association lists with insert-or-replace and delete, mirroring
`m[k] = v` and `delete(m, k)`.  Keys stay duplicate-free because every
update goes through `insertA`. -/

section AListMap

variable {κ ν : Type} [DecidableEq κ]

def lookupA (k : κ) : List (κ × ν) → Option ν
  | [] => none
  | (k', v) :: rest => if k' = k then some v else lookupA k rest

def insertA (k : κ) (v : ν) : List (κ × ν) → List (κ × ν)
  | [] => [(k, v)]
  | (k', v') :: rest => if k' = k then (k, v) :: rest else (k', v') :: insertA k v rest

def eraseA (k : κ) : List (κ × ν) → List (κ × ν)
  | [] => []
  | (k', v') :: rest => if k' = k then rest else (k', v') :: eraseA k rest

def keysA (l : List (κ × ν)) : List κ := l.map Prod.fst

def NodupKeysA (l : List (κ × ν)) : Prop := (keysA l).Nodup

instance (l : List (κ × ν)) : Decidable (NodupKeysA l) := by
  unfold NodupKeysA; infer_instance

omit [DecidableEq κ] in
theorem nodupKeysA_cons_iff (k : κ) (v : ν) (l : List (κ × ν)) :
    NodupKeysA ((k, v) :: l) ↔ k ∉ keysA l ∧ NodupKeysA l := by
  unfold NodupKeysA keysA
  rw [List.map_cons, List.nodup_cons]

omit [DecidableEq κ] in
theorem mem_keysA_iff (x : κ) (l : List (κ × ν)) : x ∈ keysA l ↔ ∃ v, (x, v) ∈ l := by
  unfold keysA
  rw [List.mem_map]
  constructor
  · rintro ⟨⟨a, b⟩, hmem, rfl⟩
    exact ⟨b, hmem⟩
  · rintro ⟨v, hv⟩
    exact ⟨(x, v), hv, rfl⟩

theorem lookupA_insertA_self (k : κ) (v : ν) (l : List (κ × ν)) :
    lookupA k (insertA k v l) = some v := by
  induction l with
  | nil => simp [insertA, lookupA]
  | cons p rest ih =>
    obtain ⟨k₀, v₀⟩ := p
    by_cases h₀ : k₀ = k
    · simp [insertA, lookupA, h₀]
    · simp [insertA, lookupA, h₀, ih]

theorem lookupA_insertA_ne (k k' : κ) (v : ν) (l : List (κ × ν)) (h : k' ≠ k) :
    lookupA k' (insertA k v l) = lookupA k' l := by
  have h' : k ≠ k' := Ne.symm h
  induction l with
  | nil => simp [insertA, lookupA, h']
  | cons p rest ih =>
    obtain ⟨k₀, v₀⟩ := p
    by_cases h₀ : k₀ = k
    · subst h₀
      simp [insertA, lookupA, h']
    · by_cases h₁ : k₀ = k'
      · simp [insertA, lookupA, h₀, h₁, h, h']
      · simp [insertA, lookupA, h₀, h₁, ih]

theorem lookupA_eq_none (k : κ) (l : List (κ × ν)) (h : k ∉ keysA l) :
    lookupA k l = none := by
  induction l with
  | nil => simp [lookupA]
  | cons p rest ih =>
    obtain ⟨k₀, v₀⟩ := p
    have h₀ : k₀ ≠ k := by
      intro he
      exact h ((mem_keysA_iff k _).mpr ⟨v₀, by rw [← he]; exact List.mem_cons_self _ _⟩)
    have h' : k ∉ keysA rest := by
      intro hm
      obtain ⟨v, hv⟩ := (mem_keysA_iff k rest).mp hm
      exact h ((mem_keysA_iff k _).mpr ⟨v, List.mem_cons_of_mem _ hv⟩)
    simp [lookupA, h₀, ih h']

theorem lookupA_eraseA_self (k : κ) (l : List (κ × ν)) (hnd : NodupKeysA l) :
    lookupA k (eraseA k l) = none := by
  induction l with
  | nil => simp [eraseA, lookupA]
  | cons p rest ih =>
    obtain ⟨k₀, v₀⟩ := p
    rw [nodupKeysA_cons_iff] at hnd
    by_cases h₀ : k₀ = k
    · have hk : k ∉ keysA rest := h₀ ▸ hnd.1
      simp only [eraseA, if_pos h₀]
      exact lookupA_eq_none k rest hk
    · simp [eraseA, lookupA, h₀, ih hnd.2]

theorem lookupA_eraseA_ne (k k' : κ) (l : List (κ × ν)) (h : k' ≠ k) :
    lookupA k' (eraseA k l) = lookupA k' l := by
  induction l with
  | nil => simp [eraseA]
  | cons p rest ih =>
    obtain ⟨k₀, v₀⟩ := p
    by_cases h₀ : k₀ = k
    · have h₂ : k ≠ k' := Ne.symm h
      simp [eraseA, lookupA, h₀, h₂]
    · simp [eraseA, lookupA, h₀, ih]

theorem keysA_insertA (k : κ) (v : ν) (l : List (κ × ν)) :
    keysA (insertA k v l) = if k ∈ keysA l then keysA l else keysA l ++ [k] := by
  induction l with
  | nil => simp [insertA, keysA]
  | cons p rest ih =>
    obtain ⟨k₀, v₀⟩ := p
    by_cases h₀ : k₀ = k
    · subst h₀
      have hmem : k₀ ∈ keysA ((k₀, v₀) :: rest) := by simp [keysA]
      rw [if_pos hmem]
      simp [insertA, keysA]
    · have h₂ : k ≠ k₀ := fun he => h₀ he.symm
      have hL : keysA (insertA k v ((k₀, v₀) :: rest)) = k₀ :: keysA (insertA k v rest) := by
        simp [insertA, keysA, h₀]
      have hiff : k ∈ keysA ((k₀, v₀) :: rest) ↔ k ∈ keysA rest := by
        simp [keysA, h₂]
      by_cases h₁ : k ∈ keysA rest
      · rw [if_pos (hiff.mpr h₁), hL, ih, if_pos h₁]
        simp [keysA]
      · rw [if_neg (fun hc => h₁ (hiff.mp hc)), hL, ih, if_neg h₁]
        simp [keysA]

theorem nodupKeysA_insertA (k : κ) (v : ν) (l : List (κ × ν)) (hnd : NodupKeysA l) :
    NodupKeysA (insertA k v l) := by
  unfold NodupKeysA
  rw [keysA_insertA]
  by_cases h : k ∈ keysA l
  · simpa [h] using hnd
  · rw [if_neg h, List.nodup_append]
    refine ⟨hnd, List.nodup_singleton _, ?_⟩
    intro a ha hak
    rw [List.mem_singleton] at hak
    subst hak
    exact h ha

theorem eraseA_sublist (k : κ) (l : List (κ × ν)) : List.Sublist (eraseA k l) l := by
  induction l with
  | nil => simp [eraseA]
  | cons p rest ih =>
    obtain ⟨k₀, v₀⟩ := p
    by_cases h₀ : k₀ = k
    · simp only [eraseA, if_pos h₀]
      exact List.sublist_cons_self (k₀, v₀) rest
    · simp only [eraseA, if_neg h₀]
      exact List.Sublist.cons₂ (k₀, v₀) ih

theorem nodupKeysA_eraseA (k : κ) (l : List (κ × ν)) (hnd : NodupKeysA l) :
    NodupKeysA (eraseA k l) := by
  unfold NodupKeysA keysA
  exact List.Nodup.sublist ((eraseA_sublist k l).map Prod.fst) hnd

theorem lookupA_of_mem_nodup (k : κ) (v : ν) (l : List (κ × ν))
    (hmem : (k, v) ∈ l) (hnd : NodupKeysA l) : lookupA k l = some v := by
  induction l with
  | nil => cases hmem
  | cons p rest ih =>
    obtain ⟨k₀, v₀⟩ := p
    rw [nodupKeysA_cons_iff] at hnd
    rcases List.mem_cons.mp hmem with h | h
    · rw [Prod.mk.injEq] at h
      obtain ⟨h₁, h₂⟩ := h
      simp [lookupA, h₁.symm, h₂]
    · have hk : k₀ ≠ k := by
        intro he
        subst he
        exact hnd.1 ((mem_keysA_iff k₀ rest).mpr ⟨v, h⟩)
      simp [lookupA, hk, ih h hnd.2]

theorem mem_of_lookupA (k : κ) (v : ν) (l : List (κ × ν))
    (h : lookupA k l = some v) : (k, v) ∈ l := by
  induction l with
  | nil => simp [lookupA] at h
  | cons p rest ih =>
    obtain ⟨k₀, v₀⟩ := p
    by_cases h₀ : k₀ = k
    · subst h₀
      simp [lookupA] at h
      simp [h]
    · simp [lookupA, h₀] at h
      exact List.mem_cons.mpr (Or.inr (ih h))

end AListMap

/-! ## Error kinds (internal/serial/errors.go)

The Go package defines sentinel error values; operations wrap driver
failures in new errors.  `openFailed` stands for a wrapped `serial.Open`
or `SetReadTimeout` failure, `ioError` for a wrapped driver read/write
failure. -/

inductive SerialError where
  | portNotFound
  | portAlreadyOpen
  | portNotOpen
  | portLocked
  | invalidSession
  | invalidConfig
  | writeTimeout
  | readTimeout
  | portClosed
  | openFailed
  | ioError
deriving DecidableEq

instance {ε α : Type} [DecidableEq ε] [DecidableEq α] : DecidableEq (Except ε α) :=
  fun a b =>
    match a, b with
    | .error e, .error f => decidable_of_iff (e = f) (by simp)
    | .error _, .ok _ => isFalse (by simp)
    | .ok _, .error _ => isFalse (by simp)
    | .ok x, .ok y => decidable_of_iff (x = y) (by simp)

/-! ## Port configuration (PortConfig / Validate, internal/serial/config.go)

Go's `StopBits`, `Parity` and `FlowControl` are int-based enums
(`iota` values); elsewhere the code casts raw config integers into
them (`serial.StopBits(cfg.Serial.Defaults.StopBits)`), so they are
modelled as unconstrained `Int` with the same numeric values:
stopBits 0 = ONE, 1 = ONE_AND_HALF, 2 = TWO; parity 0 = NONE, 1 = ODD,
2 = EVEN, 3 = MARK, 4 = SPACE; flowControl 0 = NONE, 1 = HARDWARE,
2 = SOFTWARE. -/

structure PortConfig where
  baudRate : Int
  dataBits : Int
  stopBits : Int
  parity : Int
  flowControl : Int
  readTimeoutMs : Int
  writeTimeoutMs : Int
deriving DecidableEq

/-- Embeds `DefaultConfig()` from config.go. -/
def defaultConfig : PortConfig :=
  { baudRate := 9600, dataBits := 8, stopBits := 0, parity := 0,
    flowControl := 0, readTimeoutMs := 1000, writeTimeoutMs := 1000 }

/-- The `validBaudRates` map literal inside `PortConfig.Validate`. -/
def validBaudRates : List Int :=
  [300, 600, 1200, 2400, 4800, 9600, 19200, 38400, 57600, 115200,
   230400, 460800, 921600]

/-- Embeds `PortConfig.Validate` from config.go, check for check.  The Go code
performs no check at all on `ReadTimeoutMs` / `WriteTimeoutMs`. -/
def PortConfig.validate (c : PortConfig) : Except SerialError Unit :=
  if c.baudRate < 1 then .error .invalidConfig
  else if c.baudRate ∉ validBaudRates ∧ c.baudRate < 300 then .error .invalidConfig
  else if c.dataBits < 5 ∨ c.dataBits > 8 then .error .invalidConfig
  else if c.stopBits < 0 ∨ c.stopBits > 2 then .error .invalidConfig
  else if c.parity < 0 ∨ c.parity > 4 then .error .invalidConfig
  else if c.flowControl < 0 ∨ c.flowControl > 2 then .error .invalidConfig
  else .ok ()

/-! ## Scanner port-type classification (internal/serial/scanner.go)

The Go regular expressions are all unanchored substring patterns, so
they are embedded as substring tests on character lists:
`(?i)bluetooth|bth` is a case-insensitive substring test for
"bluetooth" or "bth", `/dev/rfcomm` and `/dev/pts/|/dev/pty` are plain
substring tests, and `/dev/.*Bluetooth` asks for an occurrence of
"/dev/" followed (anywhere later) by "Bluetooth". -/

inductive PortType where
  | unknown
  | usb
  | native
  | bluetooth
  | virtual
deriving DecidableEq

/-- Tests whether `pat` starts the list `l`. -/
def listHasPre : List Char → List Char → Bool
  | [], _ => true
  | _ :: _, [] => false
  | p :: ps, c :: cs => p == c && listHasPre ps cs

/-- Tests whether `pat` occurs contiguously inside `l`. -/
def listHasSub : List Char → List Char → Bool
  | pat, [] => pat.isEmpty
  | pat, l@(_ :: cs) => listHasPre pat l || listHasSub pat cs

def strHas (s pat : String) : Bool := listHasSub pat.data s.data

def strHasCI (s pat : String) : Bool :=
  listHasSub (pat.data.map Char.toLower) (s.data.map Char.toLower)

/-- Go regex `/dev/.*Bluetooth`: some occurrence of "/dev/" is followed,
five characters later or beyond, by an occurrence of "Bluetooth". -/
def listDevBt : List Char → Bool
  | [] => false
  | l@(_ :: cs) =>
    (listHasPre "/dev/".data l && listHasSub "Bluetooth".data (l.drop 5)) || listDevBt cs

/-- Embeds `Scanner.detectPortType` from scanner.go.  `goos` is `runtime.GOOS`
and `isUSB` is the enumerator's `port.IsUSB` flag. -/
def detectPortType (goos : String) (isUSB : Bool) (name : String) : PortType :=
  if isUSB then .usb
  else
    let isBt : Bool :=
      if goos = "windows" then strHasCI name "bluetooth" || strHasCI name "bth"
      else if goos = "linux" then strHas name "/dev/rfcomm"
      else if goos = "darwin" then listDevBt name.data
      else false
    if isBt then .bluetooth
    else if goos = "linux" then
      if strHas name "/dev/pts/" || strHas name "/dev/pty" then .virtual else .native
    else .native

/-- The classification exactly as the specification words it: USB when
the driver marks the port; otherwise BLUETOOTH when the name matches
the per-OS pattern; otherwise VIRTUAL on Linux for pseudo-terminals;
otherwise NATIVE. -/
def portTypeSpec (goos : String) (isUSB : Bool) (name : String) : PortType :=
  if isUSB then .usb
  else if (goos = "windows" ∧ (strHasCI name "bluetooth" || strHasCI name "bth"))
       ∨ (goos = "linux" ∧ strHas name "/dev/rfcomm")
       ∨ (goos = "darwin" ∧ listDevBt name.data) then .bluetooth
  else if goos = "linux" ∧ (strHas name "/dev/pts/" || strHas name "/dev/pty") then .virtual
  else .native

/-! ## Sessions and the manager (internal/serial/manager.go)

A subscriber channel (`chan []byte` with capacity 100) is modelled by
its capacity and closed flag; buffered contents and channel identity
are not needed by the claims under proof.  `OpenedAt` / `LastActivity`
are wall-clock timestamps and are left out of the model.  Go's
`uuid.New()` is modelled by a fresh-id counter `nextID` on the
manager: ids are globally unique, which is the property the code
relies on.  Both Go maps hold pointers to the same `Session` object;
in-place mutation of a session is therefore modelled by writing the
updated session back through both indexes (`Manager.updateSession`). -/

structure Chan where
  capacity : Nat
  closed : Bool
deriving DecidableEq

def closeChan (c : Chan) : Chan := { c with closed := true }

/-- Modulus of the Go `uint64` statistics counters: `atomic.AddUint64`
wraps at 2^64. -/
def statMod : Nat := 2 ^ 64

theorem statMod_pos : 0 < statMod := by decide

/-- The three counters are Go `uint64` fields; every increment in the
code goes through `atomic.AddUint64` and therefore reduces mod 2^64
(`statMod`), which the update sites below mirror. -/
structure PortStatistics where
  bytesSent : Nat
  bytesReceived : Nat
  errors : Nat
deriving DecidableEq

structure Session where
  id : Nat
  portName : String
  clientID : String
  exclusive : Bool
  config : PortConfig
  stats : PortStatistics
  closed : Bool
  readers : List Chan
deriving DecidableEq

structure Manager where
  sessions : List (String × Session)
  sessionsByID : List (Nat × Session)
  allowSharedAccess : Bool
  defaultCfg : PortConfig
  nextID : Nat
deriving DecidableEq

/-- Embeds `NewManager` from manager.go. -/
def newManager (allowSharedAccess : Bool) (cfg : PortConfig) : Manager :=
  { sessions := [], sessionsByID := [], allowSharedAccess := allowSharedAccess,
    defaultCfg := cfg, nextID := 0 }

/-- Write an updated session back through both indexes; this models the
Go maps holding a shared pointer that was mutated in place. -/
def Manager.updateSession (m : Manager) (s : Session) : Manager :=
  { m with sessions := insertA s.portName s m.sessions,
           sessionsByID := insertA s.id s m.sessionsByID }

/-- Embeds `Manager.OpenPort`.  `driverOpenOk` is the outcome of
`serial.Open`, `setTimeoutOk` the outcome of `port.SetReadTimeout`
(only consulted when `ReadTimeoutMs > 0`, as in the code). -/
def Manager.openPort (m : Manager) (portName : String) (config : PortConfig)
    (clientID : String) (exclusive : Bool) (driverOpenOk setTimeoutOk : Bool) :
    Manager × Except SerialError Session :=
  match config.validate with
  | .error e => (m, .error e)
  | .ok _ =>
    let locked : Bool :=
      match lookupA portName m.sessions with
      | some existingSession =>
        existingSession.exclusive || exclusive || !m.allowSharedAccess
      | none => false
    if locked then (m, .error .portLocked)
    else if !driverOpenOk then (m, .error .openFailed)
    else if 0 < config.readTimeoutMs ∧ setTimeoutOk = false then (m, .error .openFailed)
    else
      let session : Session :=
        { id := m.nextID, portName := portName, clientID := clientID,
          exclusive := exclusive, config := config,
          stats := { bytesSent := 0, bytesReceived := 0, errors := 0 },
          closed := false, readers := [] }
      ({ m with sessions := insertA portName session m.sessions,
                sessionsByID := insertA session.id session m.sessionsByID,
                nextID := m.nextID + 1 },
       .ok session)

/-- Embeds `Manager.closeSessionLocked`: sets the closed flag, closes every
subscriber channel, drops them, closes the driver handle and removes
the session from both indexes.  Returns the new manager state together
with the final states of the subscriber channels (all closed). -/
def Manager.closeSessionLocked (m : Manager) (s : Session) :
    Manager × List Chan :=
  ({ m with sessions := eraseA s.portName m.sessions,
            sessionsByID := eraseA s.id m.sessionsByID },
   s.readers.map closeChan)

/-- Result of `Manager.ClosePort`; `ok`/`driverError` both mean the
session was torn down, the latter propagating `port.Close()`'s error. -/
inductive CloseOutcome where
  | portNotOpen
  | invalidSession
  | ok (closedSubs : List Chan)
  | driverError (closedSubs : List Chan)
deriving DecidableEq

/-- Embeds `Manager.ClosePort`.  `driverCloseOk` is the outcome of
`session.port.Close()`. -/
def Manager.closePort (m : Manager) (portName : String) (sessionID : Nat)
    (driverCloseOk : Bool) : Manager × CloseOutcome :=
  match lookupA portName m.sessions with
  | none => (m, .portNotOpen)
  | some session =>
    if session.id ≠ sessionID then (m, .invalidSession)
    else
      let r := m.closeSessionLocked session
      (r.fst, if driverCloseOk then .ok r.snd else .driverError r.snd)

/-- Embeds `Manager.CloseAll`: iterates over the name index, closing each
session; modelled as a fold of `closeSessionLocked` over the entry
list. -/
def closeAllGo : List (String × Session) → Manager → Manager
  | [], m => m
  | (_, s) :: rest, m => closeAllGo rest (m.closeSessionLocked s).fst

def Manager.closeAll (m : Manager) : Manager := closeAllGo m.sessions m

/-- Embeds `Manager.ValidateSession`. -/
def Manager.validateSession (m : Manager) (portName : String) (sessionID : Nat) :
    Except SerialError Session :=
  match lookupA portName m.sessions with
  | none => .error .portNotOpen
  | some session =>
    if session.id ≠ sessionID then .error .invalidSession
    else if session.closed then .error .portClosed
    else .ok session

/-- Embeds `Manager.Write`.  `driverRes` is the driver's `port.Write` outcome:
`.ok n` means `n` bytes were reported written; `.error ()` a write
failure (whose partial count the statistics ignore, as in the code).
The counter updates are `atomic.AddUint64`, i.e. addition mod 2^64. -/
def Manager.write (m : Manager) (portName : String) (sessionID : Nat)
    (driverRes : Except Unit Nat) : Manager × Except SerialError Nat :=
  match m.validateSession portName sessionID with
  | .error e => (m, .error e)
  | .ok session =>
    match driverRes with
    | .error _ =>
      let session' :=
        { session with stats :=
            { session.stats with errors := (session.stats.errors + 1) % statMod } }
      (m.updateSession session', .error .ioError)
    | .ok n =>
      let session' :=
        { session with stats :=
            { session.stats with bytesSent := (session.stats.bytesSent + n) % statMod } }
      (m.updateSession session', .ok n)

/-- Embeds `Manager.Read`.  `driverRes` is the driver's `port.Read` outcome:
`.ok data` delivers the freshly read bytes (possibly empty on a
timeout), `.error ()` a read failure.  The counter updates are
`atomic.AddUint64`, i.e. addition mod 2^64.  The broadcast to
subscriber channels does not change any channel's capacity or closed
flag, so the session's `readers` list is unchanged. -/
def Manager.read (m : Manager) (portName : String) (sessionID : Nat)
    (driverRes : Except Unit (List Nat)) : Manager × Except SerialError (List Nat) :=
  match m.validateSession portName sessionID with
  | .error e => (m, .error e)
  | .ok session =>
    match driverRes with
    | .error _ =>
      let session' :=
        { session with stats :=
            { session.stats with errors := (session.stats.errors + 1) % statMod } }
      (m.updateSession session', .error .ioError)
    | .ok data =>
      let session' :=
        { session with stats :=
            { session.stats with
               bytesReceived := (session.stats.bytesReceived + data.length) % statMod } }
      (m.updateSession session', .ok data)

/-- Embeds `Manager.SubscribeToReads`: allocates a 100-capacity channel and
appends it to the session's subscriber list. -/
def Manager.subscribeToReads (m : Manager) (portName : String) (sessionID : Nat) :
    Manager × Except SerialError Chan :=
  match m.validateSession portName sessionID with
  | .error e => (m, .error e)
  | .ok session =>
    let ch : Chan := { capacity := 100, closed := false }
    let session' := { session with readers := session.readers ++ [ch] }
    (m.updateSession session', .ok ch)

/-! ## Reachable manager states

Sequences of `OpenPort` / `ClosePort` / `CloseAll` calls, each open
carrying its driver outcome.  `Inv` is the two-index consistency
invariant of the specification plus the bookkeeping needed to maintain
it (duplicate-free keys, freshness of the id supply). -/

inductive MOp where
  | openOp (portName : String) (config : PortConfig) (clientID : String)
      (exclusive driverOpenOk setTimeoutOk : Bool)
  | closeOp (portName : String) (sessionID : Nat) (driverCloseOk : Bool)
  | closeAllOp

def applyMOp (m : Manager) : MOp → Manager
  | .openOp p c cl ex dOk tOk => (m.openPort p c cl ex dOk tOk).fst
  | .closeOp p sid dOk => (m.closePort p sid dOk).fst
  | .closeAllOp => m.closeAll

def runMOps (m : Manager) (ops : List MOp) : Manager := ops.foldl applyMOp m

def Inv (m : Manager) : Prop :=
  NodupKeysA m.sessions ∧ NodupKeysA m.sessionsByID ∧
  (∀ name s, lookupA name m.sessions = some s →
     s.portName = name ∧ lookupA s.id m.sessionsByID = some s) ∧
  (∀ i s, lookupA i m.sessionsByID = some s →
     s.id = i ∧ lookupA s.portName m.sessions = some s) ∧
  (∀ i s, lookupA i m.sessionsByID = some s → i < m.nextID)

theorem inv_newManager (a : Bool) (cfg : PortConfig) : Inv (newManager a cfg) := by
  refine ⟨?_, ?_, ?_, ?_, ?_⟩ <;> simp [newManager, NodupKeysA, keysA, lookupA]

theorem inv_openPort (m : Manager) (p : String) (c : PortConfig) (cl : String)
    (ex dOk tOk : Bool) (hinv : Inv m) (hns : m.allowSharedAccess = false) :
    Inv (m.openPort p c cl ex dOk tOk).fst := by
  obtain ⟨hnd1, hnd2, hfwd, hbwd, hfresh⟩ := hinv
  unfold Manager.openPort
  cases hv : c.validate with
  | error e => exact ⟨hnd1, hnd2, hfwd, hbwd, hfresh⟩
  | ok u =>
    cases hl : lookupA p m.sessions with
    | some ex₀ =>
      simp only [hns, Bool.not_false, Bool.or_true]
      exact ⟨hnd1, hnd2, hfwd, hbwd, hfresh⟩
    | none =>
      simp only [Bool.false_eq_true, if_false]
      cases dOk with
      | false => exact ⟨hnd1, hnd2, hfwd, hbwd, hfresh⟩
      | true =>
        simp only [Bool.not_true, Bool.false_eq_true, if_false]
        by_cases hto : 0 < c.readTimeoutMs ∧ tOk = false
        · rw [if_pos hto]
          exact ⟨hnd1, hnd2, hfwd, hbwd, hfresh⟩
        · rw [if_neg hto]
          dsimp only
          set s : Session :=
            { id := m.nextID, portName := p, clientID := cl, exclusive := ex,
              config := c, stats := { bytesSent := 0, bytesReceived := 0, errors := 0 },
              closed := false, readers := [] } with hsdef
          refine ⟨nodupKeysA_insertA _ _ _ hnd1, nodupKeysA_insertA _ _ _ hnd2, ?_, ?_, ?_⟩
          · intro name t hlook
            dsimp only at hlook
            by_cases hname : name = p
            · subst hname
              rw [lookupA_insertA_self] at hlook
              obtain rfl := Option.some.inj hlook
              exact ⟨rfl, lookupA_insertA_self ..⟩
            · rw [lookupA_insertA_ne _ _ _ _ hname] at hlook
              obtain ⟨hpn, hid⟩ := hfwd name t hlook
              have hne : t.id ≠ m.nextID := Nat.ne_of_lt (hfresh _ _ hid)
              exact ⟨hpn, by dsimp only; rw [lookupA_insertA_ne _ _ _ _ hne]; exact hid⟩
          · intro i t hlook
            dsimp only at hlook
            by_cases hi : i = m.nextID
            · subst hi
              rw [lookupA_insertA_self] at hlook
              obtain rfl := Option.some.inj hlook
              exact ⟨rfl, by dsimp only; exact lookupA_insertA_self ..⟩
            · rw [lookupA_insertA_ne _ _ _ _ hi] at hlook
              obtain ⟨hid, hpn⟩ := hbwd i t hlook
              have hne : t.portName ≠ p := by
                intro he
                rw [he, hl] at hpn
                cases hpn
              exact ⟨hid, by dsimp only; rw [lookupA_insertA_ne _ _ _ _ hne]; exact hpn⟩
          · intro i t hlook
            dsimp only at hlook ⊢
            by_cases hi : i = m.nextID
            · subst hi
              exact Nat.lt_succ_self _
            · rw [lookupA_insertA_ne _ _ _ _ hi] at hlook
              exact Nat.lt_succ_of_lt (hfresh _ _ hlook)

theorem inv_closeSessionLocked (m : Manager) (s : Session) (hinv : Inv m)
    (hs : lookupA s.portName m.sessions = some s) :
    Inv (m.closeSessionLocked s).fst := by
  obtain ⟨hnd1, hnd2, hfwd, hbwd, hfresh⟩ := hinv
  have hsid : lookupA s.id m.sessionsByID = some s := (hfwd _ _ hs).2
  unfold Manager.closeSessionLocked
  dsimp only
  refine ⟨nodupKeysA_eraseA _ _ hnd1, nodupKeysA_eraseA _ _ hnd2, ?_, ?_, ?_⟩
  · intro name t hlook
    have hname : name ≠ s.portName := by
      intro he
      rw [he, lookupA_eraseA_self _ _ hnd1] at hlook
      cases hlook
    rw [lookupA_eraseA_ne _ _ _ hname] at hlook
    obtain ⟨hpn, hid⟩ := hfwd name t hlook
    have hne : t.id ≠ s.id := by
      intro he
      rw [he, hsid] at hid
      obtain rfl := Option.some.inj hid
      exact hname (hpn ▸ rfl)
    exact ⟨hpn, by rw [lookupA_eraseA_ne _ _ _ hne]; exact hid⟩
  · intro i t hlook
    have hi : i ≠ s.id := by
      intro he
      rw [he, lookupA_eraseA_self _ _ hnd2] at hlook
      cases hlook
    rw [lookupA_eraseA_ne _ _ _ hi] at hlook
    obtain ⟨hid, hpn⟩ := hbwd i t hlook
    have hne : t.portName ≠ s.portName := by
      intro he
      rw [he, hs] at hpn
      obtain rfl := Option.some.inj hpn
      exact hi (hid ▸ rfl)
    exact ⟨hid, by rw [lookupA_eraseA_ne _ _ _ hne]; exact hpn⟩
  · intro i t hlook
    by_cases hi : i = s.id
    · rw [hi, lookupA_eraseA_self _ _ hnd2] at hlook
      cases hlook
    · rw [lookupA_eraseA_ne _ _ _ hi] at hlook
      exact hfresh _ _ hlook

theorem inv_closePort (m : Manager) (p : String) (sid : Nat) (dOk : Bool)
    (hinv : Inv m) : Inv (m.closePort p sid dOk).fst := by
  unfold Manager.closePort
  cases hl : lookupA p m.sessions with
  | none => exact hinv
  | some session =>
    dsimp only
    by_cases hid : session.id ≠ sid
    · rw [if_pos hid]
      exact hinv
    · rw [if_neg hid]
      have hpn : session.portName = p := (hinv.2.2.1 _ _ hl).1
      exact inv_closeSessionLocked m session hinv (by rw [hpn]; exact hl)

theorem inv_closeAllGo (L : List (String × Session)) :
    ∀ m : Manager, Inv m →
    (∀ n s, (n, s) ∈ L → lookupA n m.sessions = some s) →
    (L.map Prod.fst).Nodup → Inv (closeAllGo L m) := by
  induction L with
  | nil => intro m hinv _ _; exact hinv
  | cons p rest ih =>
    obtain ⟨n, s⟩ := p
    intro m hinv hmem hnd
    have hs : lookupA n m.sessions = some s := hmem n s (List.mem_cons_self _ _)
    have hpn : s.portName = n := (hinv.2.2.1 _ _ hs).1
    have hinv' : Inv (m.closeSessionLocked s).fst :=
      inv_closeSessionLocked m s hinv (by rw [hpn]; exact hs)
    rw [List.map_cons, List.nodup_cons] at hnd
    refine ih (m.closeSessionLocked s).fst hinv' ?_ hnd.2
    intro n' s' hmem'
    have hne : n' ≠ n := by
      intro he
      exact hnd.1 (he ▸ List.mem_map.mpr ⟨(n', s'), hmem', rfl⟩)
    rw [show (m.closeSessionLocked s).fst.sessions = eraseA s.portName m.sessions from rfl,
        hpn, lookupA_eraseA_ne _ _ _ hne]
    exact hmem n' s' (List.mem_cons_of_mem _ hmem')

theorem inv_closeAll (m : Manager) (hinv : Inv m) : Inv m.closeAll := by
  unfold Manager.closeAll
  refine inv_closeAllGo m.sessions m hinv ?_ hinv.1
  intro n s hmem
  exact lookupA_of_mem_nodup n s m.sessions hmem hinv.1

theorem allowShared_closeAllGo (L : List (String × Session)) :
    ∀ m : Manager, (closeAllGo L m).allowSharedAccess = m.allowSharedAccess := by
  induction L with
  | nil => intro m; rfl
  | cons p rest ih =>
    obtain ⟨n, s⟩ := p
    intro m
    rw [show closeAllGo ((n, s) :: rest) m = closeAllGo rest (m.closeSessionLocked s).fst from rfl,
        ih]
    rfl

theorem allowShared_applyMOp (m : Manager) (op : MOp) :
    (applyMOp m op).allowSharedAccess = m.allowSharedAccess := by
  cases op with
  | openOp p c cl ex dOk tOk =>
    show (m.openPort p c cl ex dOk tOk).fst.allowSharedAccess = m.allowSharedAccess
    unfold Manager.openPort
    cases c.validate with
    | error e => rfl
    | ok u =>
      dsimp only
      split
      · rfl
      · split
        · rfl
        · split
          · rfl
          · rfl
  | closeOp p sid dOk =>
    show (m.closePort p sid dOk).fst.allowSharedAccess = m.allowSharedAccess
    unfold Manager.closePort
    cases lookupA p m.sessions with
    | none => rfl
    | some session =>
      dsimp only
      split
      · rfl
      · rfl
  | closeAllOp => exact allowShared_closeAllGo m.sessions m

theorem inv_applyMOp (m : Manager) (op : MOp) (hinv : Inv m)
    (hns : m.allowSharedAccess = false) : Inv (applyMOp m op) := by
  cases op with
  | openOp p c cl ex dOk tOk => exact inv_openPort m p c cl ex dOk tOk hinv hns
  | closeOp p sid dOk => exact inv_closePort m p sid dOk hinv
  | closeAllOp => exact inv_closeAll m hinv

theorem inv_runMOps (ops : List MOp) :
    ∀ m : Manager, Inv m → m.allowSharedAccess = false → Inv (runMOps m ops) := by
  induction ops with
  | nil => intro m hinv _; exact hinv
  | cons op rest ih =>
    intro m hinv hns
    rw [show runMOps m (op :: rest) = runMOps (applyMOp m op) rest from rfl]
    exact ih (applyMOp m op) (inv_applyMOp m op hinv hns)
      ((allowShared_applyMOp m op).trans hns)

/-! ## Streaming reader (internal/serial/reader.go)

The Reader's mutable state: `running` (atomic bool), whether the stop
channel has been closed, and the subscriber channel list.  Effects of
each method are modelled as pure state transitions. -/

structure ReaderState where
  running : Bool
  stopClosed : Bool
  subscribers : List Chan
deriving DecidableEq

/-- Initial state of a freshly constructed Reader (`NewReader`). -/
def newReaderState : ReaderState :=
  { running := false, stopClosed := false, subscribers := [] }

/-- Embeds `Reader.Start`: returns success immediately when already running;
otherwise validates the session (outcome `sessionCheck`, `none` when
valid), sets running, replaces the stop channel with a fresh open one
and spawns the read loop.  The `Bool` in the result records whether a
new read-loop task was spawned by this call. -/
def readerStart (r : ReaderState) (sessionCheck : Option SerialError) :
    ReaderState × Bool × Except SerialError Unit :=
  if r.running then (r, false, .ok ())
  else
    match sessionCheck with
    | some e => (r, false, .error e)
    | none => ({ r with running := true, stopClosed := false }, true, .ok ())

/-- Embeds `Reader.Stop`: returns early when not running; otherwise clears
running, closes the stop channel once, closes every subscriber channel
and drops them all.  The second component lists the subscriber
channels closed by this call. -/
def readerStop (r : ReaderState) : ReaderState × List Chan :=
  if r.running then
    ({ running := false, stopClosed := true, subscribers := [] },
     r.subscribers.map closeChan)
  else (r, [])

/-- Embeds `Reader.Subscribe`: unconditionally allocates a fresh 100-capacity
channel, appends it to the subscriber list and returns it. -/
def readerSubscribe (r : ReaderState) : ReaderState × Chan :=
  let ch : Chan := { capacity := 100, closed := false }
  ({ r with subscribers := r.subscribers ++ [ch] }, ch)

/-! ## The read loop and broadcast (reader.go `readLoop` / `broadcast`)

`readLoopEvents seq rs` is the list of DataEvents the loop broadcasts
when the successive `manager.Read` calls return `rs`: a nil-error
empty read produces no event (timeout with no data), every other
result produces an event whose sequence is the pre-incremented 32-bit
counter, and a fatal error (`ErrPortClosed` / `ErrInvalidSession`)
stops the loop after its event is broadcast.  Timestamps are wall
clock and left out.

Broadcast uses a non-blocking try-send per subscriber; whether each
event lands in or is dropped by a given subscriber's bounded channel
is abstracted as a boolean mask (`maskFilter`), and the channel itself
is FIFO, so the subscriber receives exactly the masked subsequence in
order. -/

def seqMod : Nat := 2 ^ 32

structure DataEvent where
  data : List Nat
  seq : Nat
  error : Option SerialError
deriving DecidableEq

def readLoopEvents (seq : Nat) : List (Except SerialError (List Nat)) → List DataEvent
  | [] => []
  | .ok data :: rest =>
    if data = [] then readLoopEvents seq rest
    else
      { data := data, seq := (seq + 1) % seqMod, error := none } ::
        readLoopEvents ((seq + 1) % seqMod) rest
  | .error e :: rest =>
    if e = .portClosed ∨ e = .invalidSession then
      [{ data := [], seq := (seq + 1) % seqMod, error := some e }]
    else
      { data := [], seq := (seq + 1) % seqMod, error := some e } ::
        readLoopEvents ((seq + 1) % seqMod) rest

/-- Keep the elements of `as` whose mask bit is true (a subscriber's
view of the broadcast stream: kept = delivered, false = dropped by the
full-channel try-send). -/
def maskFilter {α : Type} : List α → List Bool → List α
  | [], _ => []
  | _ :: _, [] => []
  | a :: as, b :: bs => if b then a :: maskFilter as bs else maskFilter as bs

theorem maskFilter_sublist {α : Type} :
    ∀ (as : List α) (bs : List Bool), List.Sublist (maskFilter as bs) as := by
  intro as
  induction as with
  | nil => intro bs; simp [maskFilter]
  | cons a rest ih =>
    intro bs
    cases bs with
    | nil => exact List.nil_sublist _
    | cons b bs' =>
      cases b with
      | true =>
        simp only [maskFilter, if_pos rfl]
        exact List.Sublist.cons₂ a (ih bs')
      | false =>
        simp only [maskFilter, Bool.false_eq_true, if_false]
        exact List.Sublist.cons a (ih bs')

theorem maskFilter_get_src {α : Type} :
    ∀ (as : List α) (bs : List Bool) (k : Nat) (a : α),
    (maskFilter as bs).get? k = some a → ∃ i, as.get? i = some a := by
  intro as
  induction as with
  | nil => intro bs k a h; simp [maskFilter] at h
  | cons x rest ih =>
    intro bs k a h
    cases bs with
    | nil => simp [maskFilter] at h
    | cons b bs' =>
      cases b with
      | true =>
        replace h : (x :: maskFilter rest bs').get? k = some a := h
        cases k with
        | zero => exact ⟨0, by simpa using h⟩
        | succ k' =>
          rw [List.get?_cons_succ] at h
          obtain ⟨i, hi⟩ := ih bs' k' a h
          exact ⟨i + 1, by simpa using hi⟩
      | false =>
        replace h : (maskFilter rest bs').get? k = some a := h
        obtain ⟨i, hi⟩ := ih bs' k a h
        exact ⟨i + 1, by simpa using hi⟩

theorem maskFilter_adjacent {α : Type} :
    ∀ (as : List α) (bs : List Bool) (k : Nat) (a b : α),
    (maskFilter as bs).get? k = some a → (maskFilter as bs).get? (k + 1) = some b →
    ∃ i j, i < j ∧ as.get? i = some a ∧ as.get? j = some b := by
  intro as
  induction as with
  | nil => intro bs k a b h1 _; simp [maskFilter] at h1
  | cons x rest ih =>
    intro bs k a b h1 h2
    cases bs with
    | nil => simp [maskFilter] at h1
    | cons c bs' =>
      cases c with
      | true =>
        replace h1 : (x :: maskFilter rest bs').get? k = some a := h1
        replace h2 : (x :: maskFilter rest bs').get? (k + 1) = some b := h2
        cases k with
        | zero =>
          rw [List.get?_cons_succ] at h2
          obtain ⟨i, hi⟩ := maskFilter_get_src rest bs' 0 b h2
          exact ⟨0, i + 1, Nat.succ_pos _, by simpa using h1, by simpa using hi⟩
        | succ k' =>
          rw [List.get?_cons_succ] at h1 h2
          obtain ⟨i, j, hij, hi, hj⟩ := ih bs' k' a b h1 h2
          exact ⟨i + 1, j + 1, Nat.succ_lt_succ hij, by simpa using hi, by simpa using hj⟩
      | false =>
        replace h1 : (maskFilter rest bs').get? k = some a := h1
        replace h2 : (maskFilter rest bs').get? (k + 1) = some b := h2
        obtain ⟨i, j, hij, hi, hj⟩ := ih bs' k a b h1 h2
        exact ⟨i + 1, j + 1, Nat.succ_lt_succ hij, by simpa using hi, by simpa using hj⟩

theorem readLoopEvents_seq :
    ∀ (rs : List (Except SerialError (List Nat))) (s k : Nat) (ev : DataEvent),
    (readLoopEvents s rs).get? k = some ev → ev.seq = (s + k + 1) % seqMod := by
  intro rs
  induction rs with
  | nil => intro s k ev h; simp [readLoopEvents] at h
  | cons r rest ih =>
    intro s k ev h
    cases r with
    | ok data =>
      by_cases hd : data = []
      · simp only [readLoopEvents, if_pos hd] at h
        exact ih s k ev h
      · simp only [readLoopEvents, if_neg hd] at h
        cases k with
        | zero =>
          obtain rfl := Option.some.inj (by simpa using h)
          simp
        | succ k' =>
          rw [List.get?_cons_succ] at h
          have := ih ((s + 1) % seqMod) k' ev h
          rw [this]
          show ((s + 1) % seqMod + k' + 1) % seqMod = (s + (k' + 1) + 1) % seqMod
          unfold seqMod
          omega
    | error e =>
      by_cases he : e = .portClosed ∨ e = .invalidSession
      · simp only [readLoopEvents, if_pos he] at h
        cases k with
        | zero =>
          obtain rfl := Option.some.inj (by simpa using h)
          simp
        | succ k' => simp at h
      · simp only [readLoopEvents, if_neg he] at h
        cases k with
        | zero =>
          obtain rfl := Option.some.inj (by simpa using h)
          simp
        | succ k' =>
          rw [List.get?_cons_succ] at h
          have := ih ((s + 1) % seqMod) k' ev h
          rw [this]
          show ((s + 1) % seqMod + k' + 1) % seqMod = (s + (k' + 1) + 1) % seqMod
          unfold seqMod
          omega

/-! ## Per-call read timeout (facade `Read` + `ReadWithTimeout` + CLI)

`serverReadPlan` is the branch in `SerialServer.Read`: a positive
`timeout_ms` wraps the manager read in `ReadWithTimeout` with exactly
`timeout_ms` milliseconds, `timeout_ms = 0` calls `manager.Read`
directly.  `readWithTimeout` races the blocking read (completing after
`readMs`) against `time.After(timeoutMs)`.  `cliReadDeadlineMs` is the
CLI client's gRPC context deadline from cmd/read.go (`timeout` is a
uint32 flag, so the addition wraps mod 2^32). -/

inductive ReadPlan where
  | direct
  | wrapped (timeoutMs : Nat)
deriving DecidableEq

def serverReadMaxBytes (maxBytes : Int) : Int :=
  if maxBytes ≤ 0 then 1024 else maxBytes

def serverReadPlan (timeoutMs : Nat) : ReadPlan :=
  if 0 < timeoutMs then .wrapped timeoutMs else .direct

def readWithTimeout (res : Except SerialError (List Nat)) (readMs timeoutMs : Nat) :
    Except SerialError (List Nat) :=
  if readMs < timeoutMs then res else .error .readTimeout

def cliReadDeadlineMs (timeoutMs : Nat) : Nat := (timeoutMs + 2000) % 2 ^ 32

/-! ## Data-plane operation sequences (for the statistics claims)

Sequences of `Manager.Write` / `Manager.Read` calls, each with its
driver outcome. -/

inductive DOp where
  | writeOp (portName : String) (sessionID : Nat) (res : Except Unit Nat)
  | readOp (portName : String) (sessionID : Nat) (res : Except Unit (List Nat))

def applyDOp (m : Manager) : DOp → Manager
  | .writeOp p sid res => (m.write p sid res).fst
  | .readOp p sid res => (m.read p sid res).fst

def runDOps (m : Manager) (ops : List DOp) : Manager := ops.foldl applyDOp m

/-- The byte count a single operation adds to the session's
`BytesSent`: the driver-reported count of a successful write addressed
to this session, else zero. -/
def dopSendCount (s : Session) (name : String) : DOp → Nat
  | .writeOp p sid (.ok n) =>
    if p = name ∧ sid = s.id ∧ s.closed = false then n else 0
  | _ => 0

/-- Sum of the successful write counts of a run, addressed to the
session living at `name`. -/
def sentSum (s : Session) (name : String) (ops : List DOp) : Nat :=
  (ops.map (dopSendCount s name)).sum

/-- Keys of the name index always equal the stored session's port
name (true of every real manager state; Go maintains it because
sessions are only ever installed under their own port name). -/
def KeyConsistent (m : Manager) : Prop :=
  ∀ p ∈ m.sessions, (Prod.snd p).portName = Prod.fst p

instance (m : Manager) : Decidable (KeyConsistent m) := by
  unfold KeyConsistent; infer_instance

theorem validateSession_ok_iff (m : Manager) (p : String) (sid : Nat) (sp : Session) :
    m.validateSession p sid = .ok sp ↔
      lookupA p m.sessions = some sp ∧ sp.id = sid ∧ sp.closed = false := by
  unfold Manager.validateSession
  cases hl : lookupA p m.sessions with
  | none =>
    constructor
    · intro h; cases h
    · rintro ⟨h, -⟩; cases h
  | some t =>
    dsimp only
    by_cases hid : t.id ≠ sid
    · rw [if_pos hid]
      constructor
      · intro h; cases h
      · rintro ⟨h, hid', -⟩
        obtain rfl := Option.some.inj h
        exact absurd hid' hid
    · rw [if_neg hid]
      rw [Decidable.not_not] at hid
      by_cases hcl : t.closed
      · rw [if_pos hcl]
        constructor
        · intro h; cases h
        · rintro ⟨h, -, hcl'⟩
          obtain rfl := Option.some.inj h
          rw [hcl] at hcl'
          cases hcl'
      · rw [if_neg hcl]
        constructor
        · intro h
          obtain rfl := Except.ok.inj h
          exact ⟨rfl, hid, by simpa using hcl⟩
        · rintro ⟨h, -, -⟩
          obtain rfl := Option.some.inj h
          rfl

theorem mem_insertA {κ ν : Type} [DecidableEq κ] (k : κ) (v : ν)
    (l : List (κ × ν)) (q : κ × ν) (hq : q ∈ insertA k v l) :
    q = (k, v) ∨ q ∈ l := by
  induction l with
  | nil => simpa [insertA] using hq
  | cons p rest ih =>
    obtain ⟨k₀, v₀⟩ := p
    by_cases h₀ : k₀ = k
    · rw [insertA, if_pos h₀] at hq
      rcases List.mem_cons.mp hq with h | h
      · exact Or.inl h
      · exact Or.inr (List.mem_cons_of_mem _ h)
    · rw [insertA, if_neg h₀] at hq
      rcases List.mem_cons.mp hq with h | h
      · exact Or.inr (h ▸ List.mem_cons_self _ _)
      · rcases ih h with h' | h'
        · exact Or.inl h'
        · exact Or.inr (List.mem_cons_of_mem _ h')

theorem keyConsistent_updateSession (m : Manager) (s : Session)
    (hkc : KeyConsistent m) : KeyConsistent (m.updateSession s) := by
  intro q hq
  rcases mem_insertA _ _ _ _ hq with h | h
  · rw [h]
  · exact hkc q h

theorem dopSendCount_congr (s t : Session) (name : String) (op : DOp)
    (hid : t.id = s.id) (hcl : t.closed = s.closed) :
    dopSendCount t name op = dopSendCount s name op := by
  cases op with
  | writeOp p sid res =>
    cases res with
    | ok n => simp [dopSendCount, hid, hcl]
    | error u => rfl
  | readOp p sid res => rfl

theorem sentSum_congr (s t : Session) (name : String) (ops : List DOp)
    (hid : t.id = s.id) (hcl : t.closed = s.closed) :
    sentSum t name ops = sentSum s name ops := by
  induction ops with
  | nil => rfl
  | cons op rest ih =>
    simp [sentSum, List.map_cons, List.sum_cons] at ih ⊢
    rw [dopSendCount_congr s t name op hid hcl, ih]

theorem lookupA_updateSession_self (m : Manager) (s : Session) (p : String)
    (hpc : s.portName = p) :
    lookupA p (m.updateSession s).sessions = some s := by
  unfold Manager.updateSession
  dsimp only
  rw [hpc]
  exact lookupA_insertA_self ..

theorem lookupA_updateSession_ne (m : Manager) (s : Session) (name : String)
    (h : s.portName ≠ name) :
    lookupA name (m.updateSession s).sessions = lookupA name m.sessions := by
  unfold Manager.updateSession
  dsimp only
  exact lookupA_insertA_ne _ _ _ _ (Ne.symm h)

theorem dop_step (m : Manager) (name : String) (s : Session) (op : DOp)
    (hkc : KeyConsistent m) (hs : lookupA name m.sessions = some s)
    (hb : s.stats.bytesSent < statMod) :
    KeyConsistent (applyDOp m op) ∧
    ∃ t : Session, lookupA name (applyDOp m op).sessions = some t ∧
      t.id = s.id ∧ t.closed = s.closed ∧ t.portName = s.portName ∧
      t.stats.bytesSent = (s.stats.bytesSent + dopSendCount s name op) % statMod ∧
      t.stats.bytesSent < statMod := by
  have hself : s.stats.bytesSent = (s.stats.bytesSent + 0) % statMod := by
    rw [Nat.add_zero, Nat.mod_eq_of_lt hb]
  cases op with
  | writeOp p sid res =>
    dsimp only [applyDOp]
    unfold Manager.write
    cases hv : m.validateSession p sid with
    | error e =>
      dsimp only
      have hcount : dopSendCount s name (.writeOp p sid res) = 0 := by
        cases res with
        | error u => rfl
        | ok n =>
          by_cases hcond : p = name ∧ sid = s.id ∧ s.closed = false
          · exfalso
            have : m.validateSession p sid = .ok s := by
              rw [validateSession_ok_iff]
              exact ⟨hcond.1 ▸ hs, hcond.2.1.symm, hcond.2.2⟩
            rw [hv] at this
            cases this
          · simp [dopSendCount, hcond]
      exact ⟨hkc, s, hs, rfl, rfl, rfl, by rw [hcount]; exact hself, hb⟩
    | ok sp =>
      obtain ⟨hl, hid, hcl⟩ := (validateSession_ok_iff m p sid sp).mp hv
      have hpc : sp.portName = p := hkc (p, sp) (mem_of_lookupA _ _ _ hl)
      cases res with
      | ok n =>
        dsimp only
        refine ⟨keyConsistent_updateSession m _ hkc, ?_⟩
        by_cases hp : p = name
        · subst hp
          obtain rfl := Option.some.inj (hs ▸ hl)
          refine ⟨{ s with stats :=
              { s.stats with bytesSent := (s.stats.bytesSent + n) % statMod } },
            lookupA_updateSession_self m _ p hpc, rfl, rfl, rfl, ?_,
            Nat.mod_lt _ statMod_pos⟩
          have hcond : p = p ∧ sid = s.id ∧ s.closed = false := ⟨rfl, hid.symm, hcl⟩
          simp [dopSendCount, hcond]
        · have hcount : dopSendCount s name (.writeOp p sid (.ok n)) = 0 := by
            simp [dopSendCount]
            intro h
            exact absurd h hp
          refine ⟨s, ?_, rfl, rfl, rfl, by rw [hcount]; exact hself, hb⟩
          rw [lookupA_updateSession_ne m _ name (by rw [hpc]; exact hp)]
          exact hs
      | error u =>
        dsimp only
        refine ⟨keyConsistent_updateSession m _ hkc, ?_⟩
        by_cases hp : p = name
        · subst hp
          obtain rfl := Option.some.inj (hs ▸ hl)
          exact ⟨{ s with stats :=
              { s.stats with errors := (s.stats.errors + 1) % statMod } },
            lookupA_updateSession_self m _ p hpc, rfl, rfl, rfl, hself, hb⟩
        · refine ⟨s, ?_, rfl, rfl, rfl, hself, hb⟩
          rw [lookupA_updateSession_ne m _ name (by rw [hpc]; exact hp)]
          exact hs
  | readOp p sid res =>
    dsimp only [applyDOp]
    unfold Manager.read
    cases hv : m.validateSession p sid with
    | error e =>
      dsimp only
      exact ⟨hkc, s, hs, rfl, rfl, rfl, hself, hb⟩
    | ok sp =>
      obtain ⟨hl, hid, hcl⟩ := (validateSession_ok_iff m p sid sp).mp hv
      have hpc : sp.portName = p := hkc (p, sp) (mem_of_lookupA _ _ _ hl)
      cases res with
      | ok data =>
        dsimp only
        refine ⟨keyConsistent_updateSession m _ hkc, ?_⟩
        by_cases hp : p = name
        · subst hp
          obtain rfl := Option.some.inj (hs ▸ hl)
          exact ⟨{ s with stats :=
              { s.stats with
                 bytesReceived := (s.stats.bytesReceived + data.length) % statMod } },
            lookupA_updateSession_self m _ p hpc, rfl, rfl, rfl, hself, hb⟩
        · refine ⟨s, ?_, rfl, rfl, rfl, hself, hb⟩
          rw [lookupA_updateSession_ne m _ name (by rw [hpc]; exact hp)]
          exact hs
      | error u =>
        dsimp only
        refine ⟨keyConsistent_updateSession m _ hkc, ?_⟩
        by_cases hp : p = name
        · subst hp
          obtain rfl := Option.some.inj (hs ▸ hl)
          exact ⟨{ s with stats :=
              { s.stats with errors := (s.stats.errors + 1) % statMod } },
            lookupA_updateSession_self m _ p hpc, rfl, rfl, rfl, hself, hb⟩
        · refine ⟨s, ?_, rfl, rfl, rfl, hself, hb⟩
          rw [lookupA_updateSession_ne m _ name (by rw [hpc]; exact hp)]
          exact hs

theorem runDOps_bytesSent (ops : List DOp) :
    ∀ (m : Manager) (name : String) (s : Session),
    KeyConsistent m → lookupA name m.sessions = some s →
    s.stats.bytesSent < statMod →
    ∃ t : Session, lookupA name (runDOps m ops).sessions = some t ∧
      t.id = s.id ∧ t.closed = s.closed ∧ t.portName = s.portName ∧
      t.stats.bytesSent = (s.stats.bytesSent + sentSum s name ops) % statMod ∧
      t.stats.bytesSent < statMod := by
  induction ops with
  | nil =>
    intro m name s _ hs hb
    refine ⟨s, hs, rfl, rfl, rfl, ?_, hb⟩
    simp [sentSum, Nat.mod_eq_of_lt hb]
  | cons op rest ih =>
    intro m name s hkc hs hb
    obtain ⟨hkc', t₁, ht₁, hid₁, hcl₁, hpn₁, hbs₁, hb₁⟩ := dop_step m name s op hkc hs hb
    obtain ⟨t, ht, hid, hcl, hpn, hbs, hbt⟩ := ih (applyDOp m op) name t₁ hkc' ht₁ hb₁
    refine ⟨t, ht, hid.trans hid₁, hcl.trans hcl₁, hpn.trans hpn₁, ?_, hbt⟩
    rw [hbs, sentSum_congr s t₁ name rest hid₁ hcl₁, hbs₁, Nat.mod_add_mod]
    show (s.stats.bytesSent + dopSendCount s name op + sentSum s name rest) % statMod =
      (s.stats.bytesSent + sentSum s name (op :: rest)) % statMod
    have hsum : sentSum s name (op :: rest) =
        dopSendCount s name op + sentSum s name rest := by
      simp [sentSum, List.map_cons, List.sum_cons]
    rw [hsum, Nat.add_assoc]

/-! ## Concrete fixtures used by witnesses and counterexamples -/

/-- Manager with one exclusive session (id 0) open on COM3. -/
def mOpen : Manager :=
  ((newManager false defaultConfig).openPort "COM3" defaultConfig "a" true true true).fst

/-- The session created by `mOpen`'s open. -/
def sessA : Session :=
  { id := 0, portName := "COM3", clientID := "a", exclusive := true,
    config := defaultConfig, stats := { bytesSent := 0, bytesReceived := 0, errors := 0 },
    closed := false, readers := [] }

/-- State of `mOpen` after one read subscription. -/
def mSub : Manager := (mOpen.subscribeToReads "COM3" 0).fst

/-- The session of `mSub` (one subscriber channel). -/
def sessASub : Session :=
  { sessA with readers := [{ capacity := 100, closed := false }] }

/-- Shared-access manager after a first non-exclusive open of COM3. -/
def sharedOpen1 : Manager :=
  ((newManager true defaultConfig).openPort "COM3" defaultConfig "a" false true true).fst

/-- The first shared session (id 0). -/
def sessShared1 : Session :=
  { id := 0, portName := "COM3", clientID := "a", exclusive := false,
    config := defaultConfig, stats := { bytesSent := 0, bytesReceived := 0, errors := 0 },
    closed := false, readers := [] }

/-- The second shared open of COM3 (returns a fresh session, id 1). -/
def sharedOpen2 : Manager × Except SerialError Session :=
  sharedOpen1.openPort "COM3" defaultConfig "b" false true true

/-- The session created by the second shared open. -/
def sessShared2 : Session :=
  { id := 1, portName := "COM3", clientID := "b", exclusive := false,
    config := defaultConfig, stats := { bytesSent := 0, bytesReceived := 0, errors := 0 },
    closed := false, readers := [] }

/-- The state reached by two shared opens of the same port, as an
operation sequence. -/
def mSharedCounter : Manager :=
  runMOps (newManager true defaultConfig)
    [.openOp "COM3" defaultConfig "a" false true true,
     .openOp "COM3" defaultConfig "b" false true true]

/-! ## Claim C1 -/

/-- Counterexample to claim C1: with a non-exclusive session already
open on COM3 under `allow_shared_access = true`, a second shared
`OpenPort` does NOT return the existing session (id 0) — it returns a
freshly created session with a new id (1), and both indexes change. -/
theorem spec_c1_counterexample :
    sharedOpen2.snd = .ok sessShared2 ∧
    lookupA "COM3" sharedOpen1.sessions = some sessShared1 ∧
    sessShared2.id ≠ sessShared1.id ∧
    sharedOpen2.fst.sessions ≠ sharedOpen1.sessions ∧
    sharedOpen2.fst.sessionsByID ≠ sharedOpen1.sessionsByID := by
  decide

/-- Claim C1 (amended): when a session for `name` exists in `by_name`,
is not exclusive, shared access is allowed and the config is valid,
`OpenPort(name, c, cl, exclusive = false)` (with the driver open and
timeout-set succeeding) creates and returns a NEW session with a fresh
id; `by_name[name]` is overwritten with the new session and the new id
is added to `by_id`, while the existing session's `by_id` entry is
left in place (orphaned). -/
theorem spec_c1_shared_open (m : Manager) (name : String) (c : PortConfig)
    (cl : String) (exS : Session)
    (hex : lookupA name m.sessions = some exS)
    (hnotex : exS.exclusive = false)
    (hshare : m.allowSharedAccess = true)
    (hval : c.validate = .ok ())
    (hfresh : exS.id ≠ m.nextID)
    (hexid : lookupA exS.id m.sessionsByID = some exS) :
    ∃ sNew : Session,
      (m.openPort name c cl false true true).snd = .ok sNew ∧
      sNew.id = m.nextID ∧ sNew.id ≠ exS.id ∧
      (m.openPort name c cl false true true).fst.sessions =
        insertA name sNew m.sessions ∧
      (m.openPort name c cl false true true).fst.sessionsByID =
        insertA sNew.id sNew m.sessionsByID ∧
      lookupA name (m.openPort name c cl false true true).fst.sessions = some sNew ∧
      lookupA exS.id (m.openPort name c cl false true true).fst.sessionsByID =
        some exS := by
  unfold Manager.openPort
  rw [hval]
  dsimp only
  rw [hex]
  dsimp only
  rw [hnotex, hshare]
  simp only [Bool.false_or, Bool.not_true, Bool.or_false, Bool.false_eq_true, if_false]
  rw [if_neg (by simp : ¬(0 < c.readTimeoutMs ∧ (true : Bool) = false))]
  refine ⟨_, rfl, rfl, Ne.symm hfresh, rfl, rfl, lookupA_insertA_self .., ?_⟩
  dsimp only
  rw [lookupA_insertA_ne _ _ _ _ hfresh]
  exact hexid

/-- Witness for C1's amended theorem at the concrete two-shared-opens
state. -/
theorem spec_c1_shared_open_witness :
    (lookupA "COM3" sharedOpen1.sessions = some sessShared1 ∧
     sessShared1.exclusive = false ∧
     sharedOpen1.allowSharedAccess = true ∧
     PortConfig.validate defaultConfig = .ok () ∧
     sessShared1.id ≠ sharedOpen1.nextID ∧
     lookupA sessShared1.id sharedOpen1.sessionsByID = some sessShared1) ∧
    (∃ sNew : Session,
      (sharedOpen1.openPort "COM3" defaultConfig "b" false true true).snd = .ok sNew ∧
      sNew.id = sharedOpen1.nextID ∧ sNew.id ≠ sessShared1.id ∧
      (sharedOpen1.openPort "COM3" defaultConfig "b" false true true).fst.sessions =
        insertA "COM3" sNew sharedOpen1.sessions ∧
      (sharedOpen1.openPort "COM3" defaultConfig "b" false true true).fst.sessionsByID =
        insertA sNew.id sNew sharedOpen1.sessionsByID ∧
      lookupA "COM3"
        (sharedOpen1.openPort "COM3" defaultConfig "b" false true true).fst.sessions =
        some sNew ∧
      lookupA sessShared1.id
        (sharedOpen1.openPort "COM3" defaultConfig "b" false true true).fst.sessionsByID =
        some sessShared1) :=
  ⟨⟨by decide, by decide, by decide, by decide, by decide, by decide⟩,
   spec_c1_shared_open sharedOpen1 "COM3" defaultConfig "b" sessShared1
     (by decide) (by decide) (by decide) (by decide) (by decide) (by decide)⟩

/-! ## Claim C2 -/

/-- Counterexample to claim C2: after two shared opens of COM3 (a
state reachable by OpenPort operations when `allow_shared_access` is
true), id 0 is still a key of `by_id` but `by_name` for that session's
port name points to the second session, so the claimed iff fails. -/
theorem spec_c2_counterexample :
    lookupA 0 mSharedCounter.sessionsByID = some sessShared1 ∧
    lookupA sessShared1.portName mSharedCounter.sessions ≠ some sessShared1 := by
  decide

/-- Claim C2 (amended): in every state reachable by OpenPort /
ClosePort / CloseAll operations from a manager created with
`allow_shared_access = false`, a session id is a key of `by_id` iff
the `by_name` entry for that session's port name is that same session
(so `by_id[s.id] == by_name[s.portName] == s` for every open
session). -/
theorem spec_c2_index_invariant (cfg : PortConfig) (ops : List MOp) (i : Nat)
    (s : Session) :
    lookupA i (runMOps (newManager false cfg) ops).sessionsByID = some s ↔
      s.id = i ∧
      lookupA s.portName (runMOps (newManager false cfg) ops).sessions = some s := by
  have hinv : Inv (runMOps (newManager false cfg) ops) :=
    inv_runMOps ops (newManager false cfg) (inv_newManager false cfg) rfl
  obtain ⟨-, -, hfwd, hbwd, -⟩ := hinv
  constructor
  · intro h
    exact hbwd i s h
  · rintro ⟨hid, hname⟩
    have := (hfwd s.portName s hname).2
    rw [hid] at this
    exact this

/-! ## Claim C3 -/

/-- Claim C3: `ClosePort` returns PortNotOpen when `by_name` has no
entry and InvalidSession on a session-id mismatch, leaving the
manager's entire state (indexes, closed flags, subscriber sets)
unchanged; with the correct id it succeeds, all subscriber channels
end closed, and the session is removed from both indexes. -/
theorem spec_c3_close_port (m : Manager) (name : String) (sid : Nat) (dOk : Bool) :
    (lookupA name m.sessions = none →
      m.closePort name sid dOk = (m, .portNotOpen)) ∧
    (∀ s : Session, lookupA name m.sessions = some s → s.id ≠ sid →
      m.closePort name sid dOk = (m, .invalidSession)) ∧
    (∀ s : Session, lookupA name m.sessions = some s → s.id = sid →
      s.portName = name → NodupKeysA m.sessions → NodupKeysA m.sessionsByID →
      ∃ subs : List Chan,
        m.closePort name sid true =
          ({ m with sessions := eraseA name m.sessions,
                    sessionsByID := eraseA sid m.sessionsByID }, .ok subs) ∧
        subs = s.readers.map closeChan ∧
        (∀ ch ∈ subs, ch.closed = true) ∧
        lookupA name (m.closePort name sid true).fst.sessions = none ∧
        lookupA sid (m.closePort name sid true).fst.sessionsByID = none) := by
  refine ⟨?_, ?_, ?_⟩
  · intro hnone
    unfold Manager.closePort
    rw [hnone]
  · intro s hl hne
    unfold Manager.closePort
    rw [hl]
    dsimp only
    rw [if_pos hne]
  · intro s hl hsid hpn hnd1 hnd2
    have hstep : m.closePort name sid true =
        ({ m with sessions := eraseA name m.sessions,
                  sessionsByID := eraseA sid m.sessionsByID },
         .ok (s.readers.map closeChan)) := by
      unfold Manager.closePort
      rw [hl]
      dsimp only
      rw [if_neg (by simp [hsid])]
      unfold Manager.closeSessionLocked
      dsimp only
      rw [hpn, hsid]
      rfl
    refine ⟨s.readers.map closeChan, hstep, rfl, ?_, ?_, ?_⟩
    · intro ch hch
      obtain ⟨c₀, -, rfl⟩ := List.mem_map.mp hch
      rfl
    · rw [hstep]
      exact lookupA_eraseA_self name m.sessions hnd1
    · rw [hstep]
      exact lookupA_eraseA_self sid m.sessionsByID hnd2

/-- Witness for C3 at a concrete manager with one subscriber: a wrong
session id is rejected without state change, then the correct id
closes the subscriber channel and clears both indexes. -/
theorem spec_c3_close_port_witness :
    mSub.closePort "COM3" 5 true = (mSub, .invalidSession) ∧
    (∃ subs : List Chan,
      mSub.closePort "COM3" 0 true =
        ({ mSub with sessions := eraseA "COM3" mSub.sessions,
                     sessionsByID := eraseA 0 mSub.sessionsByID }, .ok subs) ∧
      subs = sessASub.readers.map closeChan ∧
      (∀ ch ∈ subs, ch.closed = true) ∧
      lookupA "COM3" (mSub.closePort "COM3" 0 true).fst.sessions = none ∧
      lookupA 0 (mSub.closePort "COM3" 0 true).fst.sessionsByID = none) :=
  ⟨(spec_c3_close_port mSub "COM3" 5 true).2.1 sessASub (by decide) (by decide),
   (spec_c3_close_port mSub "COM3" 0 true).2.2 sessASub (by decide) (by decide)
     (by decide) (by decide) (by decide)⟩

/-! ## Claim C4 -/

/-- Maximal driver write count for the C4 counterexample: the largest
value Go's `int` write count can report, 2^63 - 1. -/
def wBig : DOp := .writeOp "COM3" 0 (.ok 9223372036854775807)

/-- Session state after two maximal writes on `mOpen`: the uint64
counter holds 2^64 - 2, one step short of wrapping. -/
def sessBig2 : Session :=
  { sessA with stats :=
      { bytesSent := 18446744073709551614, bytesReceived := 0, errors := 0 } }

/-- Session state after three maximal writes: the uint64 counter has
wrapped to 2^63 - 3. -/
def sessBig3 : Session :=
  { sessA with stats :=
      { bytesSent := 9223372036854775805, bytesReceived := 0, errors := 0 } }

/-- Counterexample to claim C4 as stated: `BytesSent` is a uint64
mutated by `atomic.AddUint64`, so when the successful write counts sum
past 2^64 the counter wraps — after a third maximal write it DECREASES
(2^63 - 3 < 2^64 - 2) and no longer equals the sum of the successful
write counts. -/
theorem spec_c4_counterexample :
    lookupA "COM3" (runDOps mOpen [wBig, wBig]).sessions = some sessBig2 ∧
    lookupA "COM3" (runDOps mOpen [wBig, wBig, wBig]).sessions = some sessBig3 ∧
    sessBig3.stats.bytesSent < sessBig2.stats.bytesSent ∧
    sessBig3.stats.bytesSent ≠
      sessA.stats.bytesSent + sentSum sessA "COM3" [wBig, wBig, wBig] := by
  decide

/-- Claim C4 (amended): a session's `BytesSent` is changed only by a
`Write` whose driver write succeeded, and then to exactly
`(old + n) mod 2^64` for the driver-reported count `n` (the Go field
is a uint64 updated by `atomic.AddUint64`); a failing driver write
leaves `BytesSent` unchanged and bumps `Errors` by one (mod 2^64);
over any sequence of Write/Read operations the counter ends at
`(start + sum of successful write counts addressed to the session)
mod 2^64`, and whenever that total stays below 2^64 the counter equals
start plus the sum exactly and is non-decreasing. -/
theorem spec_c4_bytes_sent (m : Manager) (name : String) (sid : Nat) (s : Session)
    (hkc : KeyConsistent m)
    (hs : lookupA name m.sessions = some s)
    (hsid : s.id = sid) (hopen : s.closed = false)
    (hb : s.stats.bytesSent < statMod) :
    (∀ n : Nat, ∃ t : Session,
      (m.write name sid (.ok n)).snd = .ok n ∧
      lookupA name (m.write name sid (.ok n)).fst.sessions = some t ∧
      t.stats.bytesSent = (s.stats.bytesSent + n) % statMod ∧
      t.stats.errors = s.stats.errors) ∧
    (∃ t : Session,
      (m.write name sid (.error ())).snd = .error .ioError ∧
      lookupA name (m.write name sid (.error ())).fst.sessions = some t ∧
      t.stats.bytesSent = s.stats.bytesSent ∧
      t.stats.errors = (s.stats.errors + 1) % statMod) ∧
    (∀ ops : List DOp, ∃ t : Session,
      lookupA name (runDOps m ops).sessions = some t ∧
      t.stats.bytesSent = (s.stats.bytesSent + sentSum s name ops) % statMod ∧
      (s.stats.bytesSent + sentSum s name ops < statMod →
        t.stats.bytesSent = s.stats.bytesSent + sentSum s name ops ∧
        s.stats.bytesSent ≤ t.stats.bytesSent)) := by
  have hv : m.validateSession name sid = .ok s :=
    (validateSession_ok_iff m name sid s).mpr ⟨hs, hsid, hopen⟩
  have hpc : s.portName = name := hkc (name, s) (mem_of_lookupA _ _ _ hs)
  refine ⟨?_, ?_, ?_⟩
  · intro n
    refine ⟨{ s with stats :=
        { s.stats with bytesSent := (s.stats.bytesSent + n) % statMod } },
      ?_, ?_, rfl, rfl⟩
    · unfold Manager.write
      rw [hv]
    · unfold Manager.write
      rw [hv]
      dsimp only
      exact lookupA_updateSession_self m _ name hpc
  · refine ⟨{ s with stats :=
        { s.stats with errors := (s.stats.errors + 1) % statMod } },
      ?_, ?_, rfl, rfl⟩
    · unfold Manager.write
      rw [hv]
    · unfold Manager.write
      rw [hv]
      dsimp only
      exact lookupA_updateSession_self m _ name hpc
  · intro ops
    obtain ⟨t, ht, -, -, -, hbs, -⟩ := runDOps_bytesSent ops m name s hkc hs hb
    refine ⟨t, ht, hbs, ?_⟩
    intro hlt
    rw [hbs, Nat.mod_eq_of_lt hlt]
    exact ⟨rfl, Nat.le_add_right _ _⟩

/-- Mixed operation list for the C4 witness: successful, misaddressed
and failing writes plus a read. -/
def dopsMixed : List DOp :=
  [.writeOp "COM3" 0 (.ok 2), .writeOp "COM3" 7 (.ok 5),
   .readOp "COM3" 0 (.ok [1, 2]), .writeOp "COM3" 0 (.error ()),
   .writeOp "COM3" 0 (.ok 3)]

/-- Witness for C4's amended theorem at the concrete one-session
manager with the mixed operation run. -/
theorem spec_c4_bytes_sent_witness :
    (KeyConsistent mOpen ∧ lookupA "COM3" mOpen.sessions = some sessA ∧
     sessA.id = 0 ∧ sessA.closed = false ∧ sessA.stats.bytesSent < statMod) ∧
    (∃ t : Session,
      lookupA "COM3" (runDOps mOpen dopsMixed).sessions = some t ∧
      t.stats.bytesSent =
        (sessA.stats.bytesSent + sentSum sessA "COM3" dopsMixed) % statMod ∧
      (sessA.stats.bytesSent + sentSum sessA "COM3" dopsMixed < statMod →
        t.stats.bytesSent = sessA.stats.bytesSent + sentSum sessA "COM3" dopsMixed ∧
        sessA.stats.bytesSent ≤ t.stats.bytesSent)) :=
  ⟨⟨by decide, by decide, by decide, by decide, by decide⟩,
   (spec_c4_bytes_sent mOpen "COM3" 0 sessA (by decide) (by decide) (by decide)
     (by decide) (by decide)).2.2 dopsMixed⟩

/-! ## Claim C5 -/

/-- A configuration valid in every claimed respect except a negative
read timeout. -/
def cfgNegTimeout : PortConfig := { defaultConfig with readTimeoutMs := -1 }

/-- Counterexample to claim C5: a configuration with a negative
`read_timeout_ms` is outside the claimed domain, yet `Validate`
accepts it — the timeout fields are never checked. -/
theorem spec_c5_counterexample :
    cfgNegTimeout.readTimeoutMs < 0 ∧ cfgNegTimeout.validate = .ok () := by
  decide

/-- Claim C5 (amended): `Validate` succeeds exactly for baud rate at
least 300 (values below 300, standard or not, are rejected; positive
non-standard rates at or above 300 are accepted), data bits 5–8, stop
bits in {ONE, ONE_AND_HALF, TWO}, parity in {NONE, ODD, EVEN, MARK,
SPACE} and flow control in {NONE, HARDWARE, SOFTWARE}; the timeout
fields are NOT validated — any integers, including negative ones, are
accepted. -/
theorem spec_c5_validate (c : PortConfig) :
    c.validate = .ok () ↔
      (300 ≤ c.baudRate ∧ 5 ≤ c.dataBits ∧ c.dataBits ≤ 8 ∧
       0 ≤ c.stopBits ∧ c.stopBits ≤ 2 ∧ 0 ≤ c.parity ∧ c.parity ≤ 4 ∧
       0 ≤ c.flowControl ∧ c.flowControl ≤ 2) := by
  have hbaud : ∀ x ∈ validBaudRates, (300 : Int) ≤ x := by decide
  unfold PortConfig.validate
  split_ifs with h1 h2 h3 h4 h5 h6
  · constructor
    · intro h; cases h
    · rintro ⟨hb, -⟩; exact absurd hb (by omega)
  · constructor
    · intro h; cases h
    · rintro ⟨hb, -⟩
      exact absurd hb (by have := h2.2; omega)
  · constructor
    · intro h; cases h
    · rintro ⟨-, hd1, hd2, -⟩
      rcases h3 with h | h <;> omega
  · constructor
    · intro h; cases h
    · rintro ⟨-, -, -, hs1, hs2, -⟩
      rcases h4 with h | h <;> omega
  · constructor
    · intro h; cases h
    · rintro ⟨-, -, -, -, -, hp1, hp2, -⟩
      rcases h5 with h | h <;> omega
  · constructor
    · intro h; cases h
    · rintro ⟨-, -, -, -, -, -, -, hf1, hf2⟩
      rcases h6 with h | h <;> omega
  · constructor
    · intro _
      have hb : 300 ≤ c.baudRate := by
        by_cases hm : c.baudRate ∈ validBaudRates
        · exact hbaud _ hm
        · by_contra hlt
          exact h2 ⟨hm, by omega⟩
      refine ⟨hb, ?_, ?_, ?_, ?_, ?_, ?_, ?_, ?_⟩ <;> omega
    · intro _
      rfl

/-! ## Claim C6 -/

/-- Claim C6: the scanner's port-type classification agrees pointwise
with the specified rule (USB when the driver marks the port, else the
per-OS bluetooth name patterns, else Linux pseudo-terminal paths give
VIRTUAL, else NATIVE), and classifies the four concrete examples as
the specification says. -/
theorem spec_c6_port_type :
    (∀ (goos : String) (isUSB : Bool) (name : String),
      detectPortType goos isUSB name = portTypeSpec goos isUSB name) ∧
    (∀ goos : String, detectPortType goos true "COM7" = .usb) ∧
    detectPortType "linux" false "/dev/rfcomm0" = .bluetooth ∧
    detectPortType "linux" false "/dev/pts/3" = .virtual ∧
    detectPortType "linux" false "/dev/ttyS0" = .native := by
  refine ⟨?_, fun goos => rfl, by decide, by decide, by decide⟩
  intro goos isUSB name
  unfold detectPortType portTypeSpec
  cases isUSB with
  | true => rfl
  | false =>
    dsimp only
    by_cases hw : goos = "windows"
    · subst hw
      simp
    · by_cases hlx : goos = "linux"
      · subst hlx
        simp
      · by_cases hdw : goos = "darwin"
        · subst hdw
          simp
        · simp [hw, hlx, hdw]

/-! ## Claim C7 -/

/-- A running reader state. -/
def readerRunning : ReaderState := (readerStart newReaderState none).fst

/-- The reader after `Stop`. -/
def readerStopped : ReaderState := (readerStop readerRunning).fst

/-- Counterexample to claim C7: after `Stop`, `Subscribe` is NOT a
no-op yielding a closed channel — it returns a fresh open channel and
appends it to the subscriber list. -/
theorem spec_c7_counterexample :
    readerStopped.running = false ∧ readerStopped.stopClosed = true ∧
    (readerSubscribe readerStopped).snd.closed = false ∧
    (readerSubscribe readerStopped).fst ≠ readerStopped := by
  decide

/-- Claim C7 (amended): `Stop` is idempotent (a second `Stop` returns
the same state and closes nothing), `Start` on a running reader is a
no-op returning success without spawning a second read loop; but after
`Stop`, `Subscribe` still returns a fresh OPEN channel and appends it
to the subscriber list (it is not a no-op and the channel is not
closed). -/
theorem spec_c7_reader (r : ReaderState) (check : Option SerialError) :
    readerStop (readerStop r).fst = ((readerStop r).fst, []) ∧
    (r.running = true → readerStart r check = (r, false, .ok ())) ∧
    (r.running = false →
      (readerSubscribe r).snd.closed = false ∧
      (readerSubscribe r).fst =
        { r with subscribers := r.subscribers ++ [{ capacity := 100, closed := false }] }) := by
  refine ⟨?_, ?_, ?_⟩
  · unfold readerStop
    by_cases hr : r.running
    · rw [if_pos hr]
      rfl
    · rw [if_neg hr, if_neg hr]
  · intro hr
    unfold readerStart
    rw [if_pos hr]
  · intro _
    exact ⟨rfl, rfl⟩

/-- Witness for C7's amended theorem: `Start` on the running reader is
a no-op; `Subscribe` on the stopped reader yields an open channel. -/
theorem spec_c7_reader_witness :
    readerStart readerRunning none = (readerRunning, false, .ok ()) ∧
    ((readerSubscribe readerStopped).snd.closed = false ∧
     (readerSubscribe readerStopped).fst =
       { readerStopped with
          subscribers := readerStopped.subscribers ++
            [{ capacity := 100, closed := false }] }) :=
  ⟨(spec_c7_reader readerRunning none).2.1 (by decide),
   (spec_c7_reader readerStopped none).2.2 (by decide)⟩

/-! ## Claim C8 -/

/-- Claim C8: the read loop numbers its broadcast events consecutively
mod 2^32 starting at 1; each subscriber's delivered stream is a
sublist of the broadcast stream (drops, never reorders); and two
consecutively delivered events sit at broadcast positions i < j with
the second sequence equal to the first plus (j - i) mod 2^32 — the
j - i - 1 events strictly between them are exactly the broadcast
events dropped for that subscriber, so gaps expose drops and the
sequence never decreases under modular arithmetic. -/
theorem spec_c8_sequence (rs : List (Except SerialError (List Nat)))
    (mask : List Bool) :
    (∀ (k : Nat) (ev : DataEvent),
      (readLoopEvents 0 rs).get? k = some ev → ev.seq = (k + 1) % seqMod) ∧
    List.Sublist (maskFilter (readLoopEvents 0 rs) mask) (readLoopEvents 0 rs) ∧
    (∀ (k : Nat) (a b : DataEvent),
      (maskFilter (readLoopEvents 0 rs) mask).get? k = some a →
      (maskFilter (readLoopEvents 0 rs) mask).get? (k + 1) = some b →
      ∃ i j : Nat, i < j ∧
        (readLoopEvents 0 rs).get? i = some a ∧
        (readLoopEvents 0 rs).get? j = some b ∧
        b.seq = (a.seq + (j - i)) % seqMod) := by
  refine ⟨?_, maskFilter_sublist _ _, ?_⟩
  · intro k ev h
    have := readLoopEvents_seq rs 0 k ev h
    simpa using this
  · intro k a b h1 h2
    obtain ⟨i, j, hij, hi, hj⟩ := maskFilter_adjacent (readLoopEvents 0 rs) mask k a b h1 h2
    have ha := readLoopEvents_seq rs 0 i a hi
    have hb := readLoopEvents_seq rs 0 j b hj
    refine ⟨i, j, hij, hi, hj, ?_⟩
    rw [ha, hb]
    unfold seqMod
    omega

/-- Driver read results for the C8 witness: data, an empty timeout
read, data, a transient error, data. -/
def rs0 : List (Except SerialError (List Nat)) :=
  [.ok [7], .ok [], .ok [8], .error .ioError, .ok [9]]

/-- A subscriber mask dropping the second broadcast event. -/
def mask0 : List Bool := [true, false, true, true]

/-- First broadcast event of `rs0` (sequence 1). -/
def ev1 : DataEvent := { data := [7], seq := 1, error := none }

/-- Third broadcast event of `rs0` (the transient error, sequence 3). -/
def ev3 : DataEvent := { data := [], seq := 3, error := some .ioError }

/-- Witness for C8 on a concrete run: the first delivered event has
sequence 1, and the second delivered event (after one drop) sits two
broadcast positions later with sequence 1 + 2. -/
theorem spec_c8_sequence_witness :
    ev1.seq = (0 + 1) % seqMod ∧
    (∃ i j : Nat, i < j ∧
      (readLoopEvents 0 rs0).get? i = some ev1 ∧
      (readLoopEvents 0 rs0).get? j = some ev3 ∧
      ev3.seq = (ev1.seq + (j - i)) % seqMod) :=
  ⟨(spec_c8_sequence rs0 mask0).1 0 ev1 (by decide),
   (spec_c8_sequence rs0 mask0).2.2 0 ev1 ev3 (by decide) (by decide)⟩

/-! ## Claim C9 -/

/-- Counterexample to claim C9: for a 500 ms request the facade's race
timer is exactly 500 ms, not 500 + 2000 ms; a read completing after
1000 ms (inside the claimed 2500 ms window) is answered with
ReadTimeout. -/
theorem spec_c9_counterexample :
    serverReadPlan 500 = .wrapped 500 ∧
    serverReadPlan 500 ≠ .wrapped (500 + 2000) ∧
    readWithTimeout (.ok [7]) 1000 500 = .error .readTimeout := by
  decide

/-- Claim C9 (amended): for `timeout_ms > 0` the facade races the
manager read against a timer of exactly the requested `timeout_ms`
(the 2000 ms grace exists only in the CLI client's gRPC context
deadline, `cliReadDeadlineMs`), returning the read result when it
completes within the timer and ReadTimeout on expiry; for
`timeout_ms = 0` no per-call wrapper is applied (direct manager read,
driver timeout only). -/
theorem spec_c9_read_timeout (t readMs : Nat) (res : Except SerialError (List Nat)) :
    (0 < t →
      serverReadPlan t = .wrapped t ∧
      serverReadPlan t ≠ .wrapped (cliReadDeadlineMs t) ∧
      (readMs < t → readWithTimeout res readMs t = res) ∧
      (t ≤ readMs → readWithTimeout res readMs t = .error .readTimeout)) ∧
    serverReadPlan 0 = .direct := by
  refine ⟨?_, rfl⟩
  intro ht
  refine ⟨?_, ?_, ?_, ?_⟩
  · unfold serverReadPlan
    rw [if_pos ht]
  · unfold serverReadPlan
    rw [if_pos ht]
    intro h
    have := ReadPlan.wrapped.inj h
    unfold cliReadDeadlineMs at this
    omega
  · intro hr
    unfold readWithTimeout
    rw [if_pos hr]
  · intro hr
    unfold readWithTimeout
    rw [if_neg (by omega)]

/-- Witness for C9's amended theorem at a 500 ms request. -/
theorem spec_c9_read_timeout_witness :
    (0 < 500 ∧ serverReadPlan 500 = .wrapped 500) ∧
    readWithTimeout (.ok [7]) 100 500 = .ok [7] ∧
    readWithTimeout (.ok [7]) 700 500 = .error .readTimeout ∧
    serverReadPlan 0 = .direct :=
  ⟨⟨by decide, ((spec_c9_read_timeout 500 100 (.ok [7])).1 (by decide)).1⟩,
   ((spec_c9_read_timeout 500 100 (.ok [7])).1 (by decide)).2.2.1 (by decide),
   ((spec_c9_read_timeout 500 700 (.ok [7])).1 (by decide)).2.2.2 (by decide),
   (spec_c9_read_timeout 0 0 (.ok [])).2⟩

end SerialLink
